import Mathlib

/-!
Verification of the envelope / protocol-digest core of `n8n-nodes-fetchai`
(`src/nodes/Fetchai/utils/messageUtils.ts`, `protocolUtils.ts`, and the
constants module), as a shallow embedding in Lean.

Conventions of the embedding:
* JavaScript JSON values are modelled by the inductive `Js` below, with
  numbers restricted to the integral fragment (every number this package
  ever places in an envelope — `version`, `expires` — is an integer).
* Builtins of the JavaScript platform (`JSON.stringify`, `JSON.parse`,
  `Buffer` base64 and UTF-8 codecs, `String.prototype.localeCompare`,
  `Array.prototype.sort`, `crypto` hashing and signing) are modelled by
  executable Lean functions; each carries a doc comment saying exactly
  which builtin it models and under which idealization.
* Ambient effects (current time, fresh session ids, fresh nonces, the
  signing/verification backend) are passed as explicit arguments.
-/

namespace Fetchai

/-- A JavaScript JSON value (integral-number fragment).  Objects are field
lists in insertion order, as JavaScript objects are. -/
inductive Js where
  | null
  | bool (b : Bool)
  | num (n : Int)
  | str (s : String)
  | arr (items : List Js)
  | obj (fields : List (String × Js))

/-! ## A model of `JSON.stringify` (no spacing argument, as the sources call it) -/

/-- Hexadecimal digit character for `n % 16`, lowercase, as
`JSON.stringify` emits in `\u00xx` escapes. -/
def hexDigitChar (n : Nat) : Char :=
  if n % 16 < 10 then Char.ofNat (48 + n % 16) else Char.ofNat (87 + n % 16)

/-- Escape of a single character inside a JSON string literal, following
`JSON.stringify`: quote and backslash get a backslash escape, the control
characters below 0x20 get their short escape or a `\u00xx` escape, and
every other character is emitted verbatim. -/
def jsonEscapeChar (c : Char) : List Char :=
  if c = '"' then ['\\', '"']
  else if c = '\\' then ['\\', '\\']
  else if c = '\n' then ['\\', 'n']
  else if c = '\r' then ['\\', 'r']
  else if c = '\t' then ['\\', 't']
  else if c = Char.ofNat 8 then ['\\', 'b']
  else if c = Char.ofNat 12 then ['\\', 'f']
  else if c.toNat < 32 then
    ['\\', 'u', '0', '0', hexDigitChar (c.toNat / 16), hexDigitChar c.toNat]
  else [c]

/-- Characters of a JSON string literal: quote, escaped body, quote. -/
def jsonStringChars (s : String) : List Char :=
  '"' :: (s.data.flatMap jsonEscapeChar ++ ['"'])

/-- Decimal digit characters of a natural number, most significant first,
accumulated onto `acc`; the structural `fuel` must exceed the number. -/
def natCharsAux : Nat → Nat → List Char → List Char
  | 0, _, acc => acc
  | fuel + 1, n, acc =>
    if n < 10 then Char.ofNat (48 + n) :: acc
    else natCharsAux fuel (n / 10) (Char.ofNat (48 + n % 10) :: acc)

/-- Decimal digit characters of a natural number, most significant first. -/
def natChars (n : Nat) : List Char := natCharsAux (n + 1) n []

/-- Decimal characters of an integer: optional minus sign, then digits —
the form `JSON.stringify` gives an integral number. -/
def intChars (i : Int) : List Char :=
  if i < 0 then '-' :: natChars i.natAbs else natChars i.natAbs

mutual
/-- Characters of `JSON.stringify(v)` for a value `v` (no extra spacing,
fields and elements separated by single commas). -/
def jsChars : Js → List Char
  | .num i => intChars i
  | .str s => jsonStringChars s
  | .bool b => if b then "true".data else "false".data
  | .null => "null".data
  | .arr items => '[' :: (jsItemsChars items ++ [']'])
  | .obj fields => '{' :: (jsFieldsChars fields ++ ['}'])

/-- Comma-separated renderings of array elements. -/
def jsItemsChars : List Js → List Char
  | [] => []
  | [v] => jsChars v
  | v :: rest => jsChars v ++ ',' :: jsItemsChars rest

/-- Comma-separated renderings of object members, `"key":value` each. -/
def jsFieldsChars : List (String × Js) → List Char
  | [] => []
  | [(k, v)] => jsonStringChars k ++ ':' :: jsChars v
  | (k, v) :: rest => jsonStringChars k ++ ':' :: jsChars v ++ ',' :: jsFieldsChars rest
end

/-- Model of the builtin `JSON.stringify` on the integral fragment. -/
def Js.stringify (v : Js) : String := String.mk (jsChars v)

/-! ## A model of `JSON.parse`

The scanner works on character lists with a structural fuel; `none` models a
thrown `SyntaxError`.  On the integral fragment it accepts exactly the JSON
grammar (insignificant whitespace included); fractional and exponent number
forms lie outside the modelled fragment. -/

/-- Whitespace the JSON grammar ignores between tokens: space, tab,
line feed, carriage return. -/
def isJsonWs (c : Char) : Bool :=
  c.toNat = 32 || c.toNat = 9 || c.toNat = 10 || c.toNat = 13

/-- Drop leading insignificant whitespace. -/
def dropWs : List Char → List Char
  | c :: rest => if isJsonWs c then dropWs rest else c :: rest
  | [] => []

/-- Decimal digit test. -/
def isDigitChar (c : Char) : Bool := 48 ≤ c.toNat && c.toNat ≤ 57

/-- Split a longest leading run of decimal digits off the input. -/
def grabDigits : List Char → List Char × List Char
  | c :: rest =>
    if isDigitChar c then
      let p := grabDigits rest
      (c :: p.1, p.2)
    else ([], c :: rest)
  | [] => ([], [])

/-- Numeric value of a digit run, most significant first. -/
def digitsVal (ds : List Char) : Nat :=
  ds.foldl (fun acc c => acc * 10 + (c.toNat - 48)) 0

/-- Value of one hexadecimal digit character, if it is one. -/
def hexCharVal (c : Char) : Option Nat :=
  if 48 ≤ c.toNat && c.toNat ≤ 57 then some (c.toNat - 48)
  else if 97 ≤ c.toNat && c.toNat ≤ 102 then some (c.toNat - 87)
  else if 65 ≤ c.toNat && c.toNat ≤ 70 then some (c.toNat - 55)
  else none

/-- The character named by a short escape after a backslash: the letter
escapes map to their control characters, and quote, backslash and slash
map to themselves. -/
def shortEscape (e : Char) : Option Char :=
  if e = 'n' then some (Char.ofNat 10)
  else if e = 't' then some (Char.ofNat 9)
  else if e = 'r' then some (Char.ofNat 13)
  else if e = 'b' then some (Char.ofNat 8)
  else if e = 'f' then some (Char.ofNat 12)
  else if e = '"' || e = '\\' || e = '/' then some e
  else none

/-- Scan a string body after its opening quote, unescaping as the JSON
grammar prescribes, until the closing quote. -/
def scanString (acc : List Char) : List Char → Option (String × List Char)
  | '"' :: rest => some (String.mk acc.reverse, rest)
  | '\\' :: 'u' :: h1 :: h2 :: h3 :: h4 :: rest =>
    match hexCharVal h1, hexCharVal h2, hexCharVal h3, hexCharVal h4 with
    | some a, some b, some c, some d =>
      scanString (Char.ofNat (((a * 16 + b) * 16 + c) * 16 + d) :: acc) rest
    | _, _, _, _ => none
  | '\\' :: e :: rest =>
    match shortEscape e with
    | some c => scanString (c :: acc) rest
    | none => none
  | c :: rest => scanString (c :: acc) rest
  | [] => none

/-- Scan an integral JSON number: optional minus sign, then digits. -/
def scanNumber : List Char → Option (Int × List Char)
  | '-' :: r =>
    match grabDigits r with
    | ([], _) => none
    | (ds, r1) => some (-(digitsVal ds : Int), r1)
  | r =>
    match grabDigits r with
    | ([], _) => none
    | (ds, r1) => some ((digitsVal ds : Int), r1)

mutual
/-- Scan one JSON value (whitespace allowed in front). -/
def scanValue : Nat → List Char → Option (Js × List Char)
  | 0, _ => none
  | fuel + 1, cs =>
    match dropWs cs with
    | 'n' :: 'u' :: 'l' :: 'l' :: r => some (.null, r)
    | 't' :: 'r' :: 'u' :: 'e' :: r => some (.bool true, r)
    | 'f' :: 'a' :: 'l' :: 's' :: 'e' :: r => some (.bool false, r)
    | '"' :: r =>
      match scanString [] r with
      | some (s, r1) => some (.str s, r1)
      | none => none
    | '[' :: r =>
      match dropWs r with
      | ']' :: r1 => some (.arr [], r1)
      | r1 =>
        match scanItems fuel r1 with
        | some (xs, r2) => some (.arr xs, r2)
        | none => none
    | '{' :: r =>
      match dropWs r with
      | '}' :: r1 => some (.obj [], r1)
      | r1 =>
        match scanFields fuel r1 with
        | some (fs, r2) => some (.obj fs, r2)
        | none => none
    | c :: r =>
      if c = '-' || isDigitChar c then
        match scanNumber (c :: r) with
        | some (i, r1) => some (.num i, r1)
        | none => none
      else none
    | [] => none

/-- Scan one or more comma-separated array elements and the closing `]`. -/
def scanItems : Nat → List Char → Option (List Js × List Char)
  | 0, _ => none
  | fuel + 1, cs =>
    match scanValue fuel cs with
    | none => none
    | some (v, r) =>
      match dropWs r with
      | ',' :: r1 =>
        match scanItems fuel r1 with
        | some (xs, r2) => some (v :: xs, r2)
        | none => none
      | ']' :: r1 => some ([v], r1)
      | _ => none

/-- Scan one or more comma-separated object members and the closing brace. -/
def scanFields : Nat → List Char → Option (List (String × Js) × List Char)
  | 0, _ => none
  | fuel + 1, cs =>
    match dropWs cs with
    | '"' :: r =>
      match scanString [] r with
      | none => none
      | some (k, r1) =>
        match dropWs r1 with
        | ':' :: r2 =>
          match scanValue fuel r2 with
          | none => none
          | some (v, r3) =>
            match dropWs r3 with
            | ',' :: r4 =>
              match scanFields fuel r4 with
              | some (fs, r5) => some ((k, v) :: fs, r5)
              | none => none
            | '}' :: r4 => some ([(k, v)], r4)
            | _ => none
        | _ => none
    | _ => none
end

/-- Model of the builtin `JSON.parse` (integral fragment): scan one value and
require only whitespace after it. -/
def Js.parse (s : String) : Option Js :=
  match scanValue (s.data.length + 1) s.data with
  | some (v, r) => if dropWs r = [] then some v else none
  | none => none

/-! ## Round-trip lemmas: decimal digits -/

theorem natCharsAux_append (fuel : Nat) : ∀ (n : Nat) (acc : List Char),
    natCharsAux fuel n acc = natCharsAux fuel n [] ++ acc := by
  induction fuel with
  | zero => intro n acc; simp [natCharsAux]
  | succ f ih =>
    intro n acc
    by_cases h : n < 10
    · simp [natCharsAux, h]
    · simp only [natCharsAux, if_neg h]
      rw [ih (n / 10) (Char.ofNat (48 + n % 10) :: acc),
        ih (n / 10) (Char.ofNat (48 + n % 10) :: [])]
      simp

theorem natCharsAux_fuel (n : Nat) : ∀ (f : Nat), n < f →
    natCharsAux f n [] = natChars n := by
  induction n using Nat.strong_induction_on with
  | _ n ih =>
    intro f hf
    match f, hf with
    | f + 1, _ =>
      rw [natChars]
      by_cases h : n < 10
      · simp [natCharsAux, h]
      · simp only [natCharsAux, if_neg h]
        rw [natCharsAux_append f, natCharsAux_append n]
        rw [ih (n / 10) (by omega) f (by omega), ih (n / 10) (by omega) n (by omega)]

theorem natChars_unfold (n : Nat) :
    natChars n = (if n < 10 then [] else natChars (n / 10)) ++ [Char.ofNat (48 + n % 10)] := by
  by_cases h : n < 10
  · have h10 : n % 10 = n := Nat.mod_eq_of_lt h
    simp [natChars, natCharsAux, h, h10]
  · rw [natChars]
    rw [show natCharsAux (n + 1) n [] = natCharsAux n (n / 10) [Char.ofNat (48 + n % 10)] from by
      simp [natCharsAux, h]]
    rw [natCharsAux_append, natCharsAux_fuel (n / 10) n (by omega), if_neg h]

theorem digitChar_val (k : Nat) (h : k < 10) :
    (Char.ofNat (48 + k)).toNat = 48 + k ∧ isDigitChar (Char.ofNat (48 + k)) = true := by
  interval_cases k <;> exact ⟨by decide, by decide⟩

theorem natChars_ne_nil (n : Nat) : natChars n ≠ [] := by
  rw [natChars_unfold]; simp

theorem natChars_all_digits (n : Nat) : ∀ c ∈ natChars n, isDigitChar c = true := by
  induction n using Nat.strong_induction_on with
  | _ n ih =>
    rw [natChars_unfold]
    intro c hc
    rcases List.mem_append.mp hc with h | h
    · by_cases h10 : n < 10
      · simp [h10] at h
      · exact ih (n / 10) (by omega) c (by simpa [h10] using h)
    · rw [List.mem_singleton] at h
      subst h
      exact (digitChar_val (n % 10) (Nat.mod_lt _ (by omega))).2

theorem digitsVal_natChars (n : Nat) : digitsVal (natChars n) = n := by
  induction n using Nat.strong_induction_on with
  | _ n ih =>
    rw [natChars_unfold]
    by_cases h : n < 10
    · have h10 : n % 10 = n := Nat.mod_eq_of_lt h
      simp only [if_pos h, List.nil_append, digitsVal, List.foldl_cons, List.foldl_nil]
      rw [(digitChar_val (n % 10) (Nat.mod_lt _ (by omega))).1]
      omega
    · simp only [if_neg h, digitsVal, List.foldl_append, List.foldl_cons, List.foldl_nil]
      have hv := ih (n / 10) (by omega)
      rw [digitsVal] at hv
      rw [hv, (digitChar_val (n % 10) (Nat.mod_lt _ (by omega))).1]
      omega

/-! ## Round-trip lemmas: numbers -/

/-- Input that cannot extend a digit run: empty, or headed by a non-digit. -/
def noDigitHead : List Char → Prop
  | [] => True
  | c :: _ => isDigitChar c = false

theorem grabDigits_stop {cs : List Char} (h : noDigitHead cs) : grabDigits cs = ([], cs) := by
  match cs with
  | [] => rfl
  | c :: t => simp [grabDigits, show isDigitChar c = false from h]

theorem grabDigits_run (ds : List Char) (hds : ∀ c ∈ ds, isDigitChar c = true)
    (rest : List Char) (hrest : noDigitHead rest) :
    grabDigits (ds ++ rest) = (ds, rest) := by
  induction ds with
  | nil => simpa using grabDigits_stop hrest
  | cons c t ih =>
    have hc : isDigitChar c = true := hds c (by simp)
    have ht := ih fun x hx => hds x (by simp [hx])
    simp [grabDigits, hc, ht]

theorem natChars_head (n : Nat) :
    ∃ c t, natChars n = c :: t ∧ isDigitChar c = true := by
  match h : natChars n with
  | [] => exact absurd h (natChars_ne_nil n)
  | c :: t => exact ⟨c, t, rfl, natChars_all_digits n c (h ▸ List.mem_cons_self ..)⟩

theorem digit_ne_minus {c : Char} (h : isDigitChar c = true) : c ≠ '-' := by
  intro hc; subst hc; exact absurd h (by decide)

theorem scanNumber_intChars (i : Int) (rest : List Char) (hrest : noDigitHead rest) :
    scanNumber (intChars i ++ rest) = some (i, rest) := by
  by_cases hn : i < 0
  · have harg : intChars i ++ rest = '-' :: (natChars i.natAbs ++ rest) := by
      simp [intChars, hn]
    rw [harg]
    rw [show scanNumber ('-' :: (natChars i.natAbs ++ rest))
        = (match grabDigits (natChars i.natAbs ++ rest) with
           | ([], _) => none
           | (ds, r1) => some (-(digitsVal ds : Int), r1)) from rfl]
    rw [grabDigits_run _ (natChars_all_digits _) _ hrest]
    have hne := natChars_ne_nil i.natAbs
    match hnc : natChars i.natAbs with
    | [] => exact absurd hnc hne
    | c :: t =>
      have hv : digitsVal (c :: t) = i.natAbs := hnc ▸ digitsVal_natChars i.natAbs
      simp only [hv]
      have : -(i.natAbs : Int) = i := by omega
      rw [this]
  · obtain ⟨c, t, hnc, hc⟩ := natChars_head i.natAbs
    have harg : intChars i ++ rest = c :: (t ++ rest) := by
      simp [intChars, hn, hnc]
    rw [harg]
    rw [show scanNumber (c :: (t ++ rest))
        = (match grabDigits (c :: (t ++ rest)) with
           | ([], _) => none
           | (ds, r1) => some ((digitsVal ds : Int), r1)) from by
      rw [scanNumber.eq_def]
      split
      · rename_i heq
        exact absurd (List.cons.injEq .. ▸ heq).1 (digit_ne_minus hc)
      · rfl]
    have hrun : grabDigits (c :: t ++ rest) = (c :: t, rest) := by
      have := grabDigits_run (c :: t) (hnc ▸ natChars_all_digits i.natAbs) rest hrest
      simpa using this
    simp only [List.cons_append] at hrun ⊢
    rw [hrun]
    have hv : digitsVal (c :: t) = i.natAbs := hnc ▸ digitsVal_natChars i.natAbs
    simp only [hv]
    have : (i.natAbs : Int) = i := by omega
    rw [this]

/-! ## Round-trip lemmas: strings -/

theorem hexCharVal_hexDigitChar (n : Nat) : hexCharVal (hexDigitChar n) = some (n % 16) := by
  have h : n % 16 < 16 := Nat.mod_lt _ (by omega)
  rw [hexDigitChar]
  generalize n % 16 = k at h ⊢
  interval_cases k <;> decide

theorem scanString_escape (c : Char) (acc rest : List Char) :
    scanString acc (jsonEscapeChar c ++ rest) = scanString (c :: acc) rest := by
  rw [jsonEscapeChar]
  by_cases h1 : c = '"'
  · subst h1; simp [scanString, shortEscape]
  by_cases h2 : c = '\\'
  · subst h2; simp [h1, scanString, shortEscape]
  by_cases h3 : c = '\n'
  · subst h3; simp [h1, h2, scanString, shortEscape]
  by_cases h4 : c = '\r'
  · subst h4; simp [h1, h2, h3, scanString, shortEscape]
  by_cases h5 : c = '\t'
  · subst h5; simp [h1, h2, h3, h4, scanString, shortEscape]
  by_cases h6 : c = Char.ofNat 8
  · subst h6; simp [h1, h2, h3, h4, h5, scanString, shortEscape]
  by_cases h7 : c = Char.ofNat 12
  · subst h7; simp [h1, h2, h3, h4, h5, h6, scanString, shortEscape]
  by_cases h8 : c.toNat < 32
  · simp only [if_neg h1, if_neg h2, if_neg h3, if_neg h4, if_neg h5, if_neg h6, if_neg h7,
      if_pos h8, List.cons_append, List.nil_append]
    rw [show scanString acc ('\\' :: 'u' :: '0' :: '0' :: hexDigitChar (c.toNat / 16)
          :: hexDigitChar c.toNat :: rest)
        = (match hexCharVal '0', hexCharVal '0', hexCharVal (hexDigitChar (c.toNat / 16)),
             hexCharVal (hexDigitChar c.toNat) with
           | some a, some b, some d, some e =>
             scanString (Char.ofNat (((a * 16 + b) * 16 + d) * 16 + e) :: acc) rest
           | _, _, _, _ => none) from rfl]
    rw [hexCharVal_hexDigitChar, hexCharVal_hexDigitChar]
    have hdiv : c.toNat / 16 % 16 = c.toNat / 16 := Nat.mod_eq_of_lt (by omega)
    have hval : ((0 * 16 + 0) * 16 + c.toNat / 16 % 16) * 16 + c.toNat % 16 = c.toNat := by
      omega
    rw [show hexCharVal '0' = some 0 from rfl]
    simp only [hval, Char.ofNat_toNat]
  · simp only [if_neg h1, if_neg h2, if_neg h3, if_neg h4, if_neg h5, if_neg h6, if_neg h7,
      if_neg h8, List.cons_append, List.nil_append]
    rw [scanString.eq_def]
    split
    · rename_i heq
      rw [List.cons.injEq] at heq
      exact absurd heq.1 h1
    · rename_i heq
      rw [List.cons.injEq] at heq
      exact absurd heq.1 h2
    · rename_i heq
      rw [List.cons.injEq] at heq
      exact absurd heq.1 h2
    · rename_i heq
      rw [List.cons.injEq] at heq
      rw [← heq.1, ← heq.2]
    · rename_i heq
      exact absurd heq (by simp)

theorem scanString_body (cs : List Char) : ∀ (acc rest : List Char),
    scanString acc (cs.flatMap jsonEscapeChar ++ '"' :: rest)
      = some (String.mk (acc.reverse ++ cs), rest) := by
  induction cs with
  | nil => intro acc rest; simp [scanString]
  | cons c t ih =>
    intro acc rest
    rw [List.flatMap_cons, List.append_assoc, scanString_escape, ih]
    simp

theorem scanString_jsonString (s : String) (rest : List Char) :
    scanString [] (s.data.flatMap jsonEscapeChar ++ '"' :: rest) = some (s, rest) := by
  rw [scanString_body]
  cases s with
  | mk data => simp

/-! ## Round-trip lemmas: token heads and whitespace -/

theorem dropWs_cons {c : Char} (h : isJsonWs c = false) (t : List Char) :
    dropWs (c :: t) = c :: t := by
  simp [dropWs, h]

theorem char_ne_of_toNat {c d : Char} (h : c.toNat ≠ d.toNat) : c ≠ d :=
  fun he => h (he ▸ rfl)

theorem digit_head_facts {c : Char} (h : isDigitChar c = true) :
    isJsonWs c = false ∧ c ≠ 'n' ∧ c ≠ 't' ∧ c ≠ 'f' ∧ c ≠ '"' ∧ c ≠ '[' ∧ c ≠ '{'
      ∧ c ≠ ']' ∧ c ≠ '}' ∧ c ≠ ',' ∧ c ≠ '-' := by
  have hr : 48 ≤ c.toNat ∧ c.toNat ≤ 57 := by
    simpa [isDigitChar, Bool.and_eq_true, decide_eq_true_eq] using h
  refine ⟨by simp [isJsonWs]; omega, ?_, ?_, ?_, ?_, ?_, ?_, ?_, ?_, ?_, ?_⟩
  · exact char_ne_of_toNat (show c.toNat ≠ 110 by omega)
  · exact char_ne_of_toNat (show c.toNat ≠ 116 by omega)
  · exact char_ne_of_toNat (show c.toNat ≠ 102 by omega)
  · exact char_ne_of_toNat (show c.toNat ≠ 34 by omega)
  · exact char_ne_of_toNat (show c.toNat ≠ 91 by omega)
  · exact char_ne_of_toNat (show c.toNat ≠ 123 by omega)
  · exact char_ne_of_toNat (show c.toNat ≠ 93 by omega)
  · exact char_ne_of_toNat (show c.toNat ≠ 125 by omega)
  · exact char_ne_of_toNat (show c.toNat ≠ 44 by omega)
  · exact char_ne_of_toNat (show c.toNat ≠ 45 by omega)

theorem jsChars_head (v : Js) :
    ∃ c t, jsChars v = c :: t ∧ isJsonWs c = false ∧ c ≠ ']' ∧ c ≠ '}' := by
  cases v with
  | num i =>
    by_cases hn : i < 0
    · exact ⟨'-', natChars i.natAbs, by simp [jsChars, intChars, hn], by decide⟩
    · obtain ⟨c, t, hnc, hc⟩ := natChars_head i.natAbs
      obtain ⟨hws, _, _, _, _, _, _, hrb, hcb, _, _⟩ := digit_head_facts hc
      exact ⟨c, t, by simp [jsChars, intChars, hn, hnc], hws, hrb, hcb⟩
  | bool b =>
    cases b
    · exact ⟨'f', _, rfl, by decide⟩
    · exact ⟨'t', _, rfl, by decide⟩
  | null => exact ⟨'n', _, rfl, by decide⟩
  | str s => exact ⟨'"', _, rfl, by decide⟩
  | arr items => exact ⟨'[', _, rfl, by decide⟩
  | obj fields => exact ⟨'{', _, rfl, by decide⟩

theorem dropWs_jsChars (v : Js) (x : List Char) :
    dropWs (jsChars v ++ x) = jsChars v ++ x := by
  obtain ⟨c, t, hv, hws, _, _⟩ := jsChars_head v
  rw [hv, List.cons_append, dropWs_cons hws]

/-! ## Round-trip: the scanner inverts the renderer -/

theorem scanValue_step_str (f : Nat) (r : List Char) :
    scanValue (f + 1) ('"' :: r)
      = match scanString [] r with
        | some (s, r1) => some (.str s, r1)
        | none => none := rfl

theorem scanValue_step_arr (f : Nat) (r : List Char) :
    scanValue (f + 1) ('[' :: r)
      = match dropWs r with
        | ']' :: r1 => some (.arr [], r1)
        | r1 =>
          match scanItems f r1 with
          | some (xs, r2) => some (.arr xs, r2)
          | none => none := rfl

theorem scanValue_step_obj (f : Nat) (r : List Char) :
    scanValue (f + 1) ('{' :: r)
      = match dropWs r with
        | '}' :: r1 => some (.obj [], r1)
        | r1 =>
          match scanFields f r1 with
          | some (fs, r2) => some (.obj fs, r2)
          | none => none := rfl

theorem scanValue_to_scanNumber (fuel : Nat) {c : Char} (t : List Char)
    (hws : isJsonWs c = false) (hn : c ≠ 'n') (ht : c ≠ 't') (hf : c ≠ 'f')
    (hq : c ≠ '"') (hlb : c ≠ '[') (hlc : c ≠ '{')
    (hg : (c = '-' || isDigitChar c) = true) :
    scanValue (fuel + 1) (c :: t)
      = match scanNumber (c :: t) with
        | some (i, r1) => some (.num i, r1)
        | none => none := by
  simp only [scanValue]
  rw [dropWs_cons hws]
  simp [hn, ht, hf, hq, hlb, hlc, hg]

theorem scanValue_num (fuel : Nat) (i : Int) (rest : List Char) (hrest : noDigitHead rest) :
    scanValue (fuel + 1) (intChars i ++ rest) = some (.num i, rest) := by
  by_cases hn : i < 0
  · have harg : intChars i ++ rest = '-' :: (natChars i.natAbs ++ rest) := by
      simp [intChars, hn]
    rw [harg, scanValue_to_scanNumber fuel _ (by decide) (by decide) (by decide) (by decide)
      (by decide) (by decide) (by decide) (by decide), ← harg,
      scanNumber_intChars i rest hrest]
  · obtain ⟨c, t, hnc, hc⟩ := natChars_head i.natAbs
    obtain ⟨hws, hln, hlt, hlf, hlq, hlb, hlc, _, _, _, _⟩ := digit_head_facts hc
    have harg : intChars i ++ rest = c :: (t ++ rest) := by
      simp [intChars, hn, hnc]
    rw [harg, scanValue_to_scanNumber fuel _ hws hln hlt hlf hlq hlb hlc (by simp [hc]),
      ← harg, scanNumber_intChars i rest hrest]

theorem jsItems_head (x : Js) (xs : List Js) :
    ∃ c t, jsItemsChars (x :: xs) = c :: t ∧ isJsonWs c = false ∧ c ≠ ']' ∧ c ≠ '}' := by
  obtain ⟨c, t, hx, hws, hrb, hcb⟩ := jsChars_head x
  cases xs with
  | nil => exact ⟨c, t, by simp [jsItemsChars, hx], hws, hrb, hcb⟩
  | cons y ys =>
    exact ⟨c, t ++ ',' :: jsItemsChars (y :: ys), by simp [jsItemsChars, hx], hws, hrb, hcb⟩

theorem dropWs_jsItems (x : Js) (xs : List Js) (r : List Char) :
    dropWs (jsItemsChars (x :: xs) ++ r) = jsItemsChars (x :: xs) ++ r := by
  obtain ⟨c, t, hx, hws, _, _⟩ := jsItems_head x xs
  rw [hx, List.cons_append, dropWs_cons hws]

theorem scanValue_arr_cons (f : Nat) (x : Js) (xs : List Js) (rest : List Char) :
    scanValue (f + 1) ('[' :: (jsItemsChars (x :: xs) ++ ']' :: rest))
      = match scanItems f (jsItemsChars (x :: xs) ++ ']' :: rest) with
        | some (vs, r2) => some (.arr vs, r2)
        | none => none := by
  rw [scanValue_step_arr, dropWs_jsItems]
  obtain ⟨c, t, hx, _, hrb, _⟩ := jsItems_head x xs
  rw [hx, List.cons_append]
  have step : (match c :: (t ++ ']' :: rest) with
      | ']' :: r1 => some (Js.arr [], r1)
      | r1 =>
        match scanItems f r1 with
        | some (xs, r2) => some (Js.arr xs, r2)
        | none => none)
      = match scanItems f (c :: (t ++ ']' :: rest)) with
        | some (vs, r2) => some (Js.arr vs, r2)
        | none => none := by
    split
    · rename_i heq
      rw [List.cons.injEq] at heq
      exact absurd heq.1 hrb
    · rfl
  exact step

theorem jsFields_head (kv : String × Js) (fs : List (String × Js)) :
    ∃ t, jsFieldsChars (kv :: fs) = '"' :: t := by
  match kv, fs with
  | (k, v), [] =>
    exact ⟨k.data.flatMap jsonEscapeChar ++ '"' :: ':' :: jsChars v,
      by simp [jsFieldsChars, jsonStringChars]⟩
  | (k, v), f :: fs =>
    exact ⟨k.data.flatMap jsonEscapeChar
        ++ '"' :: ':' :: (jsChars v ++ ',' :: jsFieldsChars (f :: fs)),
      by simp [jsFieldsChars, jsonStringChars]⟩

theorem scanValue_obj_cons (f : Nat) (kv : String × Js) (fs : List (String × Js))
    (rest : List Char) :
    scanValue (f + 1) ('{' :: (jsFieldsChars (kv :: fs) ++ '}' :: rest))
      = match scanFields f (jsFieldsChars (kv :: fs) ++ '}' :: rest) with
        | some (ms, r2) => some (.obj ms, r2)
        | none => none := by
  obtain ⟨t, hx⟩ := jsFields_head kv fs
  rw [scanValue_step_obj, hx, List.cons_append, dropWs_cons (by decide)]
  rfl

theorem scanItems_step (f : Nat) (cs : List Char) :
    scanItems (f + 1) cs
      = match scanValue f cs with
        | none => none
        | some (v, r) =>
          match dropWs r with
          | ',' :: r1 =>
            match scanItems f r1 with
            | some (xs, r2) => some (v :: xs, r2)
            | none => none
          | ']' :: r1 => some ([v], r1)
          | _ => none := rfl

theorem scanFields_step (f : Nat) (cs : List Char) :
    scanFields (f + 1) cs
      = match dropWs cs with
        | '"' :: r =>
          match scanString [] r with
          | none => none
          | some (k, r1) =>
            match dropWs r1 with
            | ':' :: r2 =>
              match scanValue f r2 with
              | none => none
              | some (v, r3) =>
                match dropWs r3 with
                | ',' :: r4 =>
                  match scanFields f r4 with
                  | some (fs, r5) => some ((k, v) :: fs, r5)
                  | none => none
                | '}' :: r4 => some ([(k, v)], r4)
                | _ => none
            | _ => none
        | _ => none := rfl

mutual

theorem rtValue : ∀ (v : Js) (fuel : Nat) (rest : List Char),
    (jsChars v).length < fuel → noDigitHead rest →
    scanValue fuel (jsChars v ++ rest) = some (v, rest)
  | .null, fuel, rest, hf, _ => by
    cases fuel with
    | zero => exact absurd hf (by omega)
    | succ f => rfl
  | .bool b, fuel, rest, hf, _ => by
    cases fuel with
    | zero => exact absurd hf (by omega)
    | succ f => cases b <;> rfl
  | .num i, fuel, rest, hf, hrest => by
    cases fuel with
    | zero => exact absurd hf (by omega)
    | succ f => exact scanValue_num f i rest hrest
  | .str s, fuel, rest, hf, _ => by
    cases fuel with
    | zero => exact absurd hf (by omega)
    | succ f =>
      have harg : jsChars (.str s) ++ rest
          = '"' :: (s.data.flatMap jsonEscapeChar ++ '"' :: rest) := by
        simp [jsChars, jsonStringChars]
      rw [harg, scanValue_step_str, scanString_jsonString]
  | .arr [], fuel, rest, hf, _ => by
    cases fuel with
    | zero => exact absurd hf (by omega)
    | succ f => rfl
  | .arr (x :: xs), fuel, rest, hf, _ => by
    cases fuel with
    | zero => exact absurd hf (by omega)
    | succ f =>
      have harg : jsChars (.arr (x :: xs)) ++ rest
          = '[' :: (jsItemsChars (x :: xs) ++ ']' :: rest) := by
        simp [jsChars]
      have hlen : (jsItemsChars (x :: xs)).length + 1 < f := by
        have : (jsChars (.arr (x :: xs))).length = (jsItemsChars (x :: xs)).length + 2 := by
          simp [jsChars]
        omega
      rw [harg, scanValue_arr_cons, rtItems x xs f rest hlen]
  | .obj [], fuel, rest, hf, _ => by
    cases fuel with
    | zero => exact absurd hf (by omega)
    | succ f => rfl
  | .obj (kv :: fs), fuel, rest, hf, _ => by
    cases fuel with
    | zero => exact absurd hf (by omega)
    | succ f =>
      have harg : jsChars (.obj (kv :: fs)) ++ rest
          = '{' :: (jsFieldsChars (kv :: fs) ++ '}' :: rest) := by
        simp [jsChars]
      have hlen : (jsFieldsChars (kv :: fs)).length + 1 < f := by
        have : (jsChars (.obj (kv :: fs))).length = (jsFieldsChars (kv :: fs)).length + 2 := by
          simp [jsChars]
        omega
      rw [harg, scanValue_obj_cons, rtFields kv fs f rest hlen]
termination_by v => sizeOf v

theorem rtItems : ∀ (x : Js) (xs : List Js) (fuel : Nat) (rest : List Char),
    (jsItemsChars (x :: xs)).length + 1 < fuel →
    scanItems fuel (jsItemsChars (x :: xs) ++ ']' :: rest) = some (x :: xs, rest)
  | x, [], fuel, rest, hf => by
    cases fuel with
    | zero => exact absurd hf (by omega)
    | succ f =>
      have hx : (jsChars x).length < f := by
        have hl : jsItemsChars [x] = jsChars x := by simp [jsItemsChars]
        rw [hl] at hf
        omega
      have harg : jsItemsChars [x] ++ ']' :: rest = jsChars x ++ ']' :: rest := by
        simp [jsItemsChars]
      rw [harg, scanItems_step,
        rtValue x f (']' :: rest) hx (show isDigitChar ']' = false by decide)]
      rfl
  | x, y :: ys, fuel, rest, hf => by
    cases fuel with
    | zero => exact absurd hf (by omega)
    | succ f =>
      have hsplit : jsItemsChars (x :: y :: ys) = jsChars x ++ ',' :: jsItemsChars (y :: ys) :=
        rfl
      have hx : (jsChars x).length < f := by
        rw [hsplit] at hf
        simp at hf
        omega
      have hys : (jsItemsChars (y :: ys)).length + 1 < f := by
        rw [hsplit] at hf
        simp at hf
        omega
      have harg : jsItemsChars (x :: y :: ys) ++ ']' :: rest
          = jsChars x ++ ',' :: (jsItemsChars (y :: ys) ++ ']' :: rest) := by
        rw [hsplit]
        simp
      have hrec := rtItems y ys f rest hys
      rw [harg, scanItems_step,
        rtValue x f (',' :: (jsItemsChars (y :: ys) ++ ']' :: rest)) hx
          (show isDigitChar ',' = false by decide)]
      simp only [dropWs_cons (show isJsonWs ',' = false by decide), hrec]
termination_by x xs => sizeOf x + sizeOf xs

theorem rtFields : ∀ (kv : String × Js) (fs : List (String × Js)) (fuel : Nat)
    (rest : List Char),
    (jsFieldsChars (kv :: fs)).length + 1 < fuel →
    scanFields fuel (jsFieldsChars (kv :: fs) ++ '}' :: rest) = some (kv :: fs, rest)
  | (k, v), [], fuel, rest, hf => by
    cases fuel with
    | zero => exact absurd hf (by omega)
    | succ f =>
      have hv : (jsChars v).length < f := by
        simp [jsFieldsChars, jsonStringChars] at hf
        omega
      have harg : jsFieldsChars [(k, v)] ++ '}' :: rest
          = '"' :: (k.data.flatMap jsonEscapeChar
              ++ '"' :: (':' :: (jsChars v ++ '}' :: rest))) := by
        simp [jsFieldsChars, jsonStringChars]
      have hval := rtValue v f ('}' :: rest) hv (show isDigitChar '}' = false by decide)
      rw [harg, scanFields_step, dropWs_cons (show isJsonWs '"' = false by decide)]
      simp only [scanString_jsonString k (':' :: (jsChars v ++ '}' :: rest)),
        dropWs_cons (show isJsonWs ':' = false by decide), hval,
        dropWs_cons (show isJsonWs '}' = false by decide)]
  | (k, v), kv2 :: fs, fuel, rest, hf => by
    cases fuel with
    | zero => exact absurd hf (by omega)
    | succ f =>
      have hsplit : jsFieldsChars ((k, v) :: kv2 :: fs)
          = jsonStringChars k ++ ':' :: jsChars v ++ ',' :: jsFieldsChars (kv2 :: fs) := rfl
      have hv : (jsChars v).length < f := by
        rw [hsplit] at hf
        simp [jsonStringChars] at hf
        omega
      have hfs : (jsFieldsChars (kv2 :: fs)).length + 1 < f := by
        rw [hsplit] at hf
        simp [jsonStringChars] at hf
        omega
      have harg : jsFieldsChars ((k, v) :: kv2 :: fs) ++ '}' :: rest
          = '"' :: (k.data.flatMap jsonEscapeChar
              ++ '"' :: (':' :: (jsChars v
                ++ ',' :: (jsFieldsChars (kv2 :: fs) ++ '}' :: rest)))) := by
        rw [hsplit]
        simp [jsonStringChars]
      have hval := rtValue v f (',' :: (jsFieldsChars (kv2 :: fs) ++ '}' :: rest)) hv
        (show isDigitChar ',' = false by decide)
      have hrec := rtFields kv2 fs f rest hfs
      rw [harg, scanFields_step, dropWs_cons (show isJsonWs '"' = false by decide)]
      simp only [scanString_jsonString k (':' :: (jsChars v
          ++ ',' :: (jsFieldsChars (kv2 :: fs) ++ '}' :: rest))),
        dropWs_cons (show isJsonWs ':' = false by decide), hval,
        dropWs_cons (show isJsonWs ',' = false by decide), hrec]
termination_by kv fs => sizeOf kv + sizeOf fs

end

/-- The codec round-trip at the heart of the package: parsing a stringified
value gives the value back. -/
theorem parse_stringify (v : Js) : Js.parse (Js.stringify v) = some v := by
  have hdata : (Js.stringify v).data = jsChars v := rfl
  rw [Js.parse, hdata]
  have h := rtValue v ((jsChars v).length + 1) [] (by omega) trivial
  rw [List.append_nil] at h
  rw [h]
  rfl

/-! ## UTF-8 codec (model of `Buffer.from(string)` / `buffer.toString('utf-8')`) -/

/-- UTF-8 bytes of one unicode scalar value. -/
def utf8Char (n : Nat) : List Nat :=
  if n < 128 then [n]
  else if n < 2048 then [192 + n / 64, 128 + n % 64]
  else if n < 65536 then [224 + n / 4096, 128 + n / 64 % 64, 128 + n % 64]
  else [240 + n / 262144, 128 + n / 4096 % 64, 128 + n / 64 % 64, 128 + n % 64]

/-- Model of `Buffer.from(s)`: the UTF-8 bytes of a string. -/
def utf8Encode (s : String) : List Nat := s.data.flatMap fun c => utf8Char c.toNat

/-- Continuation-byte test. -/
def isCont (b : Nat) : Bool := 128 ≤ b && b < 192

mutual
/-- Decode UTF-8 bytes into scalar values; `none` on malformed input.  (The
real `buffer.toString('utf-8')` substitutes U+FFFD on malformed input rather
than failing; the two agree on every well-formed encoding, which is all the
package ever decodes.) -/
def utf8Scalars : List Nat → Option (List Nat)
  | [] => some []
  | b :: bs =>
    if b < 128 then (utf8Scalars bs).map (b :: ·)
    else if b < 192 then none
    else if b < 224 then utf8Tail1 (b - 192) bs
    else if b < 240 then utf8Tail2 (b - 224) bs
    else if b < 248 then utf8Tail3 (b - 240) bs
    else none

/-- Consume one continuation byte extending the partial scalar `hi`, then
finish the multi-byte sequence and continue decoding. -/
def utf8Tail1 (hi : Nat) : List Nat → Option (List Nat)
  | b1 :: bs =>
    if isCont b1 then (utf8Scalars bs).map ((hi * 64 + (b1 - 128)) :: ·) else none
  | [] => none

/-- Consume a continuation byte, then one more via `utf8Tail1`. -/
def utf8Tail2 (hi : Nat) : List Nat → Option (List Nat)
  | b1 :: bs => if isCont b1 then utf8Tail1 (hi * 64 + (b1 - 128)) bs else none
  | [] => none

/-- Consume a continuation byte, then two more via `utf8Tail2`. -/
def utf8Tail3 (hi : Nat) : List Nat → Option (List Nat)
  | b1 :: bs => if isCont b1 then utf8Tail2 (hi * 64 + (b1 - 128)) bs else none
  | [] => none
end

/-- Model of `buffer.toString('utf-8')` on well-formed encodings. -/
def utf8Decode (bytes : List Nat) : Option String :=
  (utf8Scalars bytes).map fun ns => String.mk (ns.map Char.ofNat)

theorem utf8Scalars_char (n : Nat) (h : n < 1114112) (bs : List Nat) :
    utf8Scalars (utf8Char n ++ bs) = (utf8Scalars bs).map (n :: ·) := by
  by_cases h1 : n < 128
  · have e : utf8Char n ++ bs = n :: bs := by
      rw [utf8Char, if_pos h1]
      rfl
    rw [e, utf8Scalars, if_pos h1]
  by_cases h2 : n < 2048
  · have e : utf8Char n ++ bs = (192 + n / 64) :: (128 + n % 64) :: bs := by
      rw [utf8Char, if_neg h1, if_pos h2]
      rfl
    rw [e, utf8Scalars]
    rw [if_neg (by omega), if_neg (by omega), if_pos (by omega)]
    rw [show 192 + n / 64 - 192 = n / 64 from by omega]
    rw [utf8Tail1, if_pos (by simp [isCont]; omega)]
    rw [show n / 64 * 64 + (128 + n % 64 - 128) = n from by omega]
  by_cases h3 : n < 65536
  · have e : utf8Char n ++ bs
        = (224 + n / 4096) :: (128 + n / 64 % 64) :: (128 + n % 64) :: bs := by
      rw [utf8Char, if_neg h1, if_neg h2, if_pos h3]
      rfl
    rw [e, utf8Scalars]
    rw [if_neg (by omega), if_neg (by omega), if_neg (by omega), if_pos (by omega)]
    rw [show 224 + n / 4096 - 224 = n / 4096 from by omega]
    rw [utf8Tail2, if_pos (by simp [isCont]; omega)]
    rw [utf8Tail1, if_pos (by simp [isCont]; omega)]
    rw [show (n / 4096 * 64 + (128 + n / 64 % 64 - 128)) * 64 + (128 + n % 64 - 128) = n
      from by omega]
  · have e : utf8Char n ++ bs = (240 + n / 262144) :: (128 + n / 4096 % 64)
        :: (128 + n / 64 % 64) :: (128 + n % 64) :: bs := by
      rw [utf8Char, if_neg h1, if_neg h2, if_neg h3]
      rfl
    rw [e, utf8Scalars]
    rw [if_neg (by omega), if_neg (by omega), if_neg (by omega), if_neg (by omega),
      if_pos (by omega)]
    rw [show 240 + n / 262144 - 240 = n / 262144 from by omega]
    rw [utf8Tail3, if_pos (by simp [isCont]; omega)]
    rw [utf8Tail2, if_pos (by simp [isCont]; omega)]
    rw [utf8Tail1, if_pos (by simp [isCont]; omega)]
    rw [show ((n / 262144 * 64 + (128 + n / 4096 % 64 - 128)) * 64
        + (128 + n / 64 % 64 - 128)) * 64 + (128 + n % 64 - 128) = n from by omega]

theorem char_toNat_lt (c : Char) : c.toNat < 1114112 := by
  have h := c.valid
  rcases h with h | h
  · have : c.toNat < 55296 := h
    omega
  · exact h.2

theorem utf8Scalars_encode (cs : List Char) :
    utf8Scalars (cs.flatMap fun c => utf8Char c.toNat) = some (cs.map Char.toNat) := by
  induction cs with
  | nil => rfl
  | cons c t ih =>
    rw [List.flatMap_cons, utf8Scalars_char c.toNat (char_toNat_lt c), ih]
    rfl

theorem utf8Decode_encode (s : String) : utf8Decode (utf8Encode s) = some s := by
  rw [utf8Encode, utf8Decode, utf8Scalars_encode]
  have e : (s.data.map Char.toNat).map Char.ofNat = s.data := by
    rw [List.map_map]
    have hcomp : (Char.ofNat ∘ Char.toNat) = id := by
      funext c
      exact Char.ofNat_toNat c
    rw [hcomp, List.map_id]
  rw [Option.map_some', e]

theorem utf8Char_bytes_lt (n : Nat) (h : n < 1114112) : ∀ b ∈ utf8Char n, b < 256 := by
  intro b hb
  rw [utf8Char] at hb
  by_cases h1 : n < 128
  · simp [h1] at hb
    omega
  by_cases h2 : n < 2048
  · simp [h1, h2] at hb
    rcases hb with hb | hb <;> omega
  by_cases h3 : n < 65536
  · simp [h1, h2, h3] at hb
    rcases hb with hb | hb | hb <;> omega
  · simp [h1, h2, h3] at hb
    rcases hb with hb | hb | hb | hb <;> omega

theorem utf8Encode_bytes_lt (s : String) : ∀ b ∈ utf8Encode s, b < 256 := by
  intro b hb
  rw [utf8Encode, List.mem_flatMap] at hb
  obtain ⟨c, _, hc⟩ := hb
  exact utf8Char_bytes_lt c.toNat (char_toNat_lt c) b hc

/-! ## Base64 codec (model of `buffer.toString('base64')` / `Buffer.from(s, 'base64')`) -/

/-- Character of the standard base64 alphabet at index `i < 64`. -/
def b64Char (i : Nat) : Char :=
  if i < 26 then Char.ofNat (65 + i)
  else if i < 52 then Char.ofNat (97 + (i - 26))
  else if i < 62 then Char.ofNat (48 + (i - 52))
  else if i = 62 then '+'
  else '/'

/-- Index of a base64 alphabet character, `none` for anything else. -/
def b64CharVal (c : Char) : Option Nat :=
  if 65 ≤ c.toNat && c.toNat ≤ 90 then some (c.toNat - 65)
  else if 97 ≤ c.toNat && c.toNat ≤ 122 then some (c.toNat - 71)
  else if 48 ≤ c.toNat && c.toNat ≤ 57 then some (c.toNat + 4)
  else if c = '+' then some 62
  else if c = '/' then some 63
  else none

/-- Model of `buffer.toString('base64')`: standard alphabet, `=` padding. -/
def b64Encode : List Nat → List Char
  | [] => []
  | [b0] => [b64Char (b0 / 4), b64Char (b0 % 4 * 16), '=', '=']
  | [b0, b1] => [b64Char (b0 / 4), b64Char (b0 % 4 * 16 + b1 / 16), b64Char (b1 % 16 * 4), '=']
  | b0 :: b1 :: b2 :: rest =>
    b64Char (b0 / 4) :: b64Char (b0 % 4 * 16 + b1 / 16) :: b64Char (b1 % 16 * 4 + b2 / 64)
      :: b64Char (b2 % 64) :: b64Encode rest

/-- Model of `Buffer.from(s, 'base64')` on canonical padded input; `none`
models the lenient builtin's behavior on garbage, which the package never
feeds it on the round-trip path. -/
def b64Decode : List Char → Option (List Nat)
  | [] => some []
  | [c0, c1, '=', '='] =>
    match b64CharVal c0, b64CharVal c1 with
    | some a, some b => some [a * 4 + b / 16]
    | _, _ => none
  | [c0, c1, c2, '='] =>
    match b64CharVal c0, b64CharVal c1, b64CharVal c2 with
    | some a, some b, some c => some [a * 4 + b / 16, b % 16 * 16 + c / 4]
    | _, _, _ => none
  | c0 :: c1 :: c2 :: c3 :: rest =>
    match b64CharVal c0, b64CharVal c1, b64CharVal c2, b64CharVal c3 with
    | some a, some b, some c, some d =>
      (b64Decode rest).map
        (fun tail => (a * 4 + b / 16) :: (b % 16 * 16 + c / 4) :: (c % 4 * 64 + d) :: tail)
    | _, _, _, _ => none
  | _ => none

theorem b64CharVal_b64Char : ∀ i, i < 64 → b64CharVal (b64Char i) = some i := by decide

theorem b64Char_ne_eq : ∀ i, i < 64 → b64Char i ≠ '=' := by decide

theorem b64Decode_encode (bs : List Nat) (h : ∀ b ∈ bs, b < 256) :
    b64Decode (b64Encode bs) = some bs := by
  induction bs using b64Encode.induct with
  | case1 => rfl
  | case2 b0 =>
    have h0 : b0 < 256 := h b0 (by simp)
    rw [b64Encode, b64Decode]
    rw [b64CharVal_b64Char (b0 / 4) (by omega), b64CharVal_b64Char (b0 % 4 * 16) (by omega)]
    have e0 : b0 / 4 * 4 + b0 % 4 * 16 / 16 = b0 := by omega
    simp only [e0]
  | case3 b0 b1 =>
    have h0 : b0 < 256 := h b0 (by simp)
    have h1 : b1 < 256 := h b1 (by simp)
    rw [b64Encode, b64Decode]
    rw [b64CharVal_b64Char (b0 / 4) (by omega),
      b64CharVal_b64Char (b0 % 4 * 16 + b1 / 16) (by omega),
      b64CharVal_b64Char (b1 % 16 * 4) (by omega)]
    have e0 : b0 / 4 * 4 + (b0 % 4 * 16 + b1 / 16) / 16 = b0 := by omega
    have e1 : (b0 % 4 * 16 + b1 / 16) % 16 * 16 + b1 % 16 * 4 / 4 = b1 := by omega
    simp only [e0, e1]
    exact b64Char_ne_eq (b1 % 16 * 4) (by omega)
  | case4 b0 b1 b2 rest ih =>
    have h0 : b0 < 256 := h b0 (by simp)
    have h1 : b1 < 256 := h b1 (by simp)
    have h2 : b2 < 256 := h b2 (by simp)
    have hrest : ∀ b ∈ rest, b < 256 := fun b hb => h b (by simp [hb])
    rw [b64Encode]
    rw [show b64Decode (b64Char (b0 / 4) :: b64Char (b0 % 4 * 16 + b1 / 16)
        :: b64Char (b1 % 16 * 4 + b2 / 64) :: b64Char (b2 % 64) :: b64Encode rest)
      = (match b64CharVal (b64Char (b0 / 4)), b64CharVal (b64Char (b0 % 4 * 16 + b1 / 16)),
           b64CharVal (b64Char (b1 % 16 * 4 + b2 / 64)), b64CharVal (b64Char (b2 % 64)) with
         | some a, some b, some c, some d =>
           (b64Decode (b64Encode rest)).map
             (fun tail => (a * 4 + b / 16) :: (b % 16 * 16 + c / 4) :: (c % 4 * 64 + d) :: tail)
         | _, _, _, _ => none) from ?step]
    · rw [b64CharVal_b64Char (b0 / 4) (by omega),
        b64CharVal_b64Char (b0 % 4 * 16 + b1 / 16) (by omega),
        b64CharVal_b64Char (b1 % 16 * 4 + b2 / 64) (by omega),
        b64CharVal_b64Char (b2 % 64) (by omega), ih hrest]
      have e0 : b0 / 4 * 4 + (b0 % 4 * 16 + b1 / 16) / 16 = b0 := by omega
      have e1 : (b0 % 4 * 16 + b1 / 16) % 16 * 16 + (b1 % 16 * 4 + b2 / 64) / 4 = b1 := by
        omega
      have e2 : (b1 % 16 * 4 + b2 / 64) % 4 * 64 + b2 % 64 = b2 := by omega
      simp only [Option.map_some', e0, e1, e2]
    case step =>
      rw [b64Decode.eq_def]
      split
      · rename_i heq
        exact absurd heq.symm (by simp)
      · rename_i heq
        rw [List.cons.injEq, List.cons.injEq, List.cons.injEq, List.cons.injEq] at heq
        exact absurd heq.2.2.1 (b64Char_ne_eq (b1 % 16 * 4 + b2 / 64) (by omega))
      · rename_i heq
        rw [List.cons.injEq, List.cons.injEq, List.cons.injEq, List.cons.injEq] at heq
        exact absurd heq.2.2.2.1 (b64Char_ne_eq (b2 % 64) (by omega))
      · rename_i heq
        rw [List.cons.injEq, List.cons.injEq, List.cons.injEq, List.cons.injEq] at heq
        obtain ⟨e0, e1, e2, e3, e4⟩ := heq
        rw [← e0, ← e1, ← e2, ← e3, ← e4]
      · rename_i hne
        exact absurd rfl (hne (b64Char (b0 / 4)) (b64Char (b0 % 4 * 16 + b1 / 16))
          (b64Char (b1 % 16 * 4 + b2 / 64)) (b64Char (b2 % 64)) (b64Encode rest))

/-! ## Envelope engine (`messageUtils.ts` and the constants module)

Ambient effects become explicit arguments: `now` is the already-floored
`Math.floor(Date.now() / 1000)`, `freshSession` the value `createSessionId()`
would return, `freshNonce` the value `createNonce()` would return, and the
signing/verification backends stand for the `crypto` module. -/

/-- Constant `ENVELOPE_VERSION` from the constants module. -/
def ENVELOPE_VERSION : Int := 1

/-- Constant `DEFAULT_MESSAGE_EXPIRY` (5 minutes) from the constants module. -/
def DEFAULT_MESSAGE_EXPIRY : Int := 300

/-- The `AgentEnvelope` interface.  Optional interface fields are `Option`s;
`none` models an absent (`undefined`) field. -/
structure AgentEnvelope where
  version : Int
  sender : String
  target : String
  session : String
  schemaDigest : String
  protocolDigest : Option String
  payload : String
  expires : Option Int
  nonce : Option String
  signature : Option String

/-- JavaScript `a || b` on an optional string: `undefined` and `""` are
falsy and select the default. -/
def jsOrStr (v : Option String) (dflt : String) : String :=
  match v with
  | some s => if s = "" then dflt else s
  | none => dflt

/-- JavaScript `a || b` on an optional number: `undefined` and `0` are
falsy and select the default. -/
def jsOrInt (v : Option Int) (dflt : Int) : Int :=
  match v with
  | some n => if n = 0 then dflt else n
  | none => dflt

/-- Function `calculateExpiry`: current time (in whole seconds) plus TTL. -/
def calculateExpiry (now : Int) (ttlSeconds : Int) : Int := now + ttlSeconds

/-- Function `isExpired`: strict greater-than of current time over the
expiry timestamp. -/
def isExpired (now : Int) (expiryTimestamp : Int) : Bool := now > expiryTimestamp

/-- Function `encodePayload`: base64 of the UTF-8 bytes of the JSON
serialization. -/
def encodePayload (payload : List (String × Js)) : String :=
  String.mk (b64Encode (utf8Encode (Js.stringify (.obj payload))))

/-- Function `decodePayload` on the payload string: base64-decode, UTF-8
decode, `JSON.parse`; `none` models a thrown decoding error. -/
def decodePayloadStr (s : String) : Option Js :=
  match b64Decode s.data with
  | none => none
  | some bytes =>
    match utf8Decode bytes with
    | none => none
    | some txt => Js.parse txt

/-- Function `decodePayload` applied to an envelope. -/
def decodePayload (e : AgentEnvelope) : Option Js := decodePayloadStr e.payload

/-- The `options` object of `createEnvelope`. -/
structure CreateOptions where
  session : Option String := none
  protocolDigest : Option String := none
  expirySeconds : Option Int := none

/-- Function `createEnvelope`: build an unsigned envelope.  The payload is
base64-encoded JSON exactly as `encodePayload` produces; `session` defaults
to a fresh id via `||`, the TTL defaults to `DEFAULT_MESSAGE_EXPIRY` via
`||`, and `signature` is absent. -/
def createEnvelope (now : Int) (freshSession freshNonce : String)
    (sender target : String) (payload : List (String × Js)) (schemaDigest : String)
    (options : CreateOptions) : AgentEnvelope :=
  { version := ENVELOPE_VERSION
    sender := sender
    target := target
    session := jsOrStr options.session freshSession
    schemaDigest := schemaDigest
    protocolDigest := options.protocolDigest
    payload := String.mk (b64Encode (utf8Encode (Js.stringify (.obj payload))))
    expires := some (calculateExpiry now (jsOrInt options.expirySeconds DEFAULT_MESSAGE_EXPIRY))
    nonce := some freshNonce
    signature := none }

/-- The canonical signing payload built identically by `signEnvelope` and
`verifyEnvelope`: `JSON.stringify` of the fields version, sender, target,
session, schemaDigest, payload, expires, nonce — in that order, with
`protocolDigest` and `signature` never included (`JSON.stringify` drops
`undefined`-valued fields, hence the conditional tails). -/
def signingPayload (e : AgentEnvelope) : String :=
  Js.stringify (.obj
    ([("version", Js.num e.version), ("sender", Js.str e.sender),
      ("target", Js.str e.target), ("session", Js.str e.session),
      ("schemaDigest", Js.str e.schemaDigest), ("payload", Js.str e.payload)]
      ++ (match e.expires with
          | some t => [("expires", Js.num t)]
          | none => [])
      ++ (match e.nonce with
          | some n => [("nonce", Js.str n)]
          | none => [])))

/-- Modelled builtin: the `crypto.createSign`/`sign` pipeline as a function
from private-key bytes and signing payload to a base64 signature. -/
def SignBackend : Type := List Nat → String → String

/-- Modelled builtin: the `crypto.createVerify`/`verify` pipeline as a
function from public-key bytes, signing payload and base64 signature to
either a boolean or a thrown error (`Except.error`). -/
def VerifyBackend : Type := List Nat → String → String → Except String Bool

/-- Function `signEnvelope`: returns a copy of the envelope with
`signature` populated from the canonical signing payload. -/
def signEnvelope (sb : SignBackend) (e : AgentEnvelope) (privateKey : List Nat) :
    AgentEnvelope :=
  { e with signature := some (sb privateKey (signingPayload e)) }

/-- Function `verifyEnvelope`: false when `signature` is falsy (absent or
empty); otherwise runs the backend on the recomputed signing payload,
turning any thrown error into `false`. -/
def verifyEnvelope (vb : VerifyBackend) (e : AgentEnvelope) (publicKey : List Nat) : Bool :=
  match e.signature with
  | none => false
  | some sig =>
    if sig = "" then false
    else
      match vb publicKey (signingPayload e) sig with
      | .ok b => b
      | .error _ => false

/-- Function `createResponseEnvelope`: swap sender and target, reuse the
session and the protocol digest of the original. -/
def createResponseEnvelope (now : Int) (freshSession freshNonce : String)
    (originalEnvelope : AgentEnvelope) (sender : String)
    (responsePayload : List (String × Js)) (responseSchemaDigest : String) : AgentEnvelope :=
  createEnvelope now freshSession freshNonce sender originalEnvelope.sender
    responsePayload responseSchemaDigest
    { session := some originalEnvelope.session
      protocolDigest := originalEnvelope.protocolDigest }

/-- Function `createErrorEnvelope`: error payload under the fixed schema
digest `model:error-v1`, reusing only the session of the original. -/
def createErrorEnvelope (now : Int) (freshSession freshNonce : String)
    (originalEnvelope : AgentEnvelope) (sender errorCode errorMessage : String) :
    AgentEnvelope :=
  createEnvelope now freshSession freshNonce sender originalEnvelope.sender
    [("type", Js.str "error"), ("code", Js.str errorCode), ("message", Js.str errorMessage)]
    "model:error-v1"
    { session := some originalEnvelope.session }

theorem decodePayloadStr_encodePayload (p : List (String × Js)) :
    decodePayloadStr (encodePayload p) = some (.obj p) := by
  rw [encodePayload, decodePayloadStr]
  rw [show (String.mk (b64Encode (utf8Encode (Js.stringify (.obj p))))).data
      = b64Encode (utf8Encode (Js.stringify (.obj p))) from rfl]
  rw [b64Decode_encode _ (utf8Encode_bytes_lt _)]
  simp only [utf8Decode_encode, parse_stringify]

/-! ## Protocol utilities (`protocolUtils.ts`)

The crypto hash pipeline is idealized as an injective fingerprint, and the
two sort builtins (`localeCompare` collation, default string sort) are
modelled explicitly below. -/

/-- Three-way lexicographic comparison of weight lists. -/
def cmpNatList : List Nat → List Nat → Ordering
  | [], [] => .eq
  | [], _ :: _ => .lt
  | _ :: _, [] => .gt
  | a :: as, b :: bs => if a < b then .lt else if b < a then .gt else cmpNatList as bs

/-- ASCII uppercase letter test on a code point. -/
def isUpperAscii (n : Nat) : Bool := 65 ≤ n && n ≤ 90

/-- ASCII lowercase letter test on a code point. -/
def isLowerAscii (n : Nat) : Bool := 97 ≤ n && n ≤ 122

/-- Completely ignorable code points of the root collation within ASCII:
the C0 controls other than the five whitespace ones (TAB, LF, VT, FF, CR),
and DEL — their DUCET collation elements are all-zero, so they contribute
nothing to a sort key and strings differing only in them collate equal. -/
def isIgnorable (n : Nat) : Bool := n ≤ 8 || (14 ≤ n && n ≤ 31) || n = 127

/-- The non-ignorable ASCII whitespace, punctuation and symbol code points
in root-collation (DUCET) primary order: TAB LF VT FF CR SPACE, then
punctuation `_ - , ; : ! ? . ' " ( ) [ ] { } @ * /` backslash `& # %`, then
the modifier symbols backquote and caret, the math symbols
`+ < = > | ~`, and the currency symbol `$` — all of which precede every
digit, which in turn precede every letter. -/
def symbolOrder : List Nat :=
  [9, 10, 11, 12, 13, 32,
   95, 45, 44, 59, 58, 33, 63, 46, 39, 34, 40, 41, 91, 93, 123, 125,
   64, 42, 47, 92, 38, 35, 37,
   96, 94,
   43, 60, 61, 62, 124, 126,
   36]

/-- Position of a code point in a weight table. -/
def tableIdx (n : Nat) : List Nat → Option Nat
  | [] => none
  | x :: xs => if x = n then some 0 else (tableIdx n xs).map (· + 1)

/-- Primary collation weight of a non-ignorable code point, following the
root collation: whitespace/punctuation/symbols by table position (weights
1–38), digits next (100–109), then letters case-folded (200–225).
Non-ASCII code points fall back to `300 + n`, after all ASCII — they are
outside the modelled domain. All weights are positive, so `0` can serve as
the level separator in `collKey`. -/
def primWeight (n : Nat) : Nat :=
  if isUpperAscii n then 200 + (n - 65)
  else if isLowerAscii n then 200 + (n - 97)
  else if 48 ≤ n && n ≤ 57 then 100 + (n - 48)
  else
    match tableIdx n symbolOrder with
    | some i => i + 1
    | none => 300 + n

/-- Tertiary (case) collation weight: lowercase before uppercase; every
other code point takes the uniform tertiary weight. -/
def caseWeight (n : Nat) : Nat := if isUpperAscii n then 2 else 1

/-- The code points of a string that the collation does not ignore. -/
def collChars (s : String) : List Char :=
  s.data.filter fun c => !isIgnorable c.toNat

/-- Collation key of a string: the primary weights of its non-ignorable
code points, a `0` level separator, then their case weights — so primary
differences dominate case differences, and ignorable characters drop out
entirely (the key is deliberately not injective, as the real sort key is
not). -/
def collKey (s : String) : List Nat :=
  (collChars s).map (fun c => primWeight c.toNat)
    ++ 0 :: (collChars s).map (fun c => caseWeight c.toNat)

/-- Modelled builtin: `String.prototype.localeCompare` under the default
(ICU root) locale, restricted to ASCII: ignorable controls are skipped,
punctuation and symbols sort below digits (`'_' < '0'`), digits below
letters, letters compare case-insensitively at the primary level (so
`'a' < 'B'`) with lowercase before uppercase on primary ties. -/
def localeCompare (a b : String) : Ordering := cmpNatList (collKey a) (collKey b)

/-- The `ModelDefinition` interface. -/
structure ModelDefinition where
  name : String
  schema : List (String × Js)
  description : Option String := none

/-- The `HandlerDefinition` interface. -/
structure HandlerDefinition where
  name : String
  messageType : String
  responseType : Option String := none
  description : Option String := none

/-- The `ProtocolManifest` interface. -/
structure ProtocolManifest where
  name : String
  version : String
  digest : String
  description : Option String := none
  models : List ModelDefinition
  handlers : List HandlerDefinition

/-- Comparator ordering of `computeProtocolDigest`'s model sort:
`(a, b) => a.name.localeCompare(b.name)` sorts ascending, i.e. `a` may
precede `b` whenever the comparator is not positive. -/
def modelLe (a b : ModelDefinition) : Prop := localeCompare a.name b.name ≠ Ordering.gt

instance : DecidableRel modelLe := fun a b => by
  unfold modelLe
  infer_instance

/-- Modelled builtin: `[...manifest.models].sort(cmp)` — a stable sort
(required of `Array.prototype.sort` since ES2019), modelled by the stable
insertion sort. -/
def digestModels (models : List ModelDefinition) : List ModelDefinition :=
  List.insertionSort modelLe models

/-- Ordering of `Object.keys(schema).sort()`: the default string sort,
lexicographic on UTF-16 code units (= code points within the BMP). -/
def keyLe (a b : String × Js) : Prop :=
  cmpNatList (a.1.data.map Char.toNat) (b.1.data.map Char.toNat) ≠ Ordering.gt

instance : DecidableRel keyLe := fun a b => by
  unfold keyLe
  infer_instance

mutual
/-- Node count of a value, for the canonicalizer's termination measure. -/
def jsSize : Js → Nat
  | .obj fields => jsFieldsSize fields + 1
  | .arr items => jsItemsSize items + 1
  | _ => 1

/-- Node count of array items. -/
def jsItemsSize : List Js → Nat
  | [] => 0
  | x :: xs => jsSize x + jsItemsSize xs

/-- Node count of object field values. -/
def jsFieldsSize : List (String × Js) → Nat
  | [] => 0
  | (_, v) :: fs => jsSize v + jsFieldsSize fs
end

theorem jsSize_pos (v : Js) : 1 ≤ jsSize v := by
  cases v <;> simp [jsSize]

theorem jsFieldsSize_eq_sum (l : List (String × Js)) :
    jsFieldsSize l = (l.map fun kv => jsSize kv.2).sum := by
  induction l with
  | nil => rfl
  | cons kv t ih =>
    match kv with
    | (k, v) => simp [jsFieldsSize, ih]

theorem jsFieldsSize_perm {l1 l2 : List (String × Js)} (h : l1.Perm l2) :
    jsFieldsSize l1 = jsFieldsSize l2 := by
  rw [jsFieldsSize_eq_sum, jsFieldsSize_eq_sum]
  exact (h.map _).sum_eq

theorem jsFieldsSize_insertionSort (l : List (String × Js)) :
    jsFieldsSize (List.insertionSort keyLe l) = jsFieldsSize l :=
  jsFieldsSize_perm (List.perm_insertionSort keyLe l)

/-- The `Object.keys` view of a JavaScript array: index-string keys in
order (`"0"`, `"1"`, …). -/
def idxFields (i : Nat) : List Js → List (String × Js)
  | [] => []
  | x :: xs => (toString i, x) :: idxFields (i + 1) xs

theorem jsFieldsSize_idxFields (xs : List Js) : ∀ i, jsFieldsSize (idxFields i xs)
    = jsItemsSize xs := by
  induction xs with
  | nil => intro i; rfl
  | cons x t ih =>
    intro i
    simp [idxFields, jsFieldsSize, jsItemsSize, ih (i + 1)]

mutual
/-- Fueled worker for `canonicalizeSchema`: rebuild the record with keys
sorted by `Object.keys(schema).sort()`, transforming each value in
sorted-key order.  The structural fuel is a technical device only: every
recursive call strictly decreases the node-count measure `4·size + tag`
while fuel drops by one, so the entry fuel of `canonicalizeSchema` below is
never exhausted and the zero-fuel arms are unreachable. -/
def canonSchemaF : Nat → List (String × Js) → List (String × Js)
  | 0, _ => []
  | fuel + 1, fields => canonFieldsF fuel (List.insertionSort keyLe fields)

/-- Per-field pass over the sorted field list. -/
def canonFieldsF : Nat → List (String × Js) → List (String × Js)
  | 0, _ => []
  | _ + 1, [] => []
  | fuel + 1, (k, v) :: rest => (k, canonValueF fuel v) :: canonFieldsF fuel rest

/-- Per-value transform: a non-array object recurses; an array maps its
items; anything else passes through. -/
def canonValueF : Nat → Js → Js
  | 0, v => v
  | fuel + 1, .obj fs => .obj (canonSchemaF fuel fs)
  | fuel + 1, .arr xs => .arr (canonItemsF fuel xs)
  | _ + 1, v => v

/-- Item-wise pass over an array value. -/
def canonItemsF : Nat → List Js → List Js
  | 0, _ => []
  | _ + 1, [] => []
  | fuel + 1, x :: xs => canonItemF fuel x :: canonItemsF fuel xs

/-- Per-item transform inside an array: `typeof item === 'object'` holds
for objects and arrays alike, so an array item is itself fed to
`canonicalizeSchema`, whose `Object.keys` view of an array is its index
strings — the item comes back as an object. -/
def canonItemF : Nat → Js → Js
  | 0, v => v
  | fuel + 1, .obj fs => .obj (canonSchemaF fuel fs)
  | fuel + 1, .arr xs => .obj (canonSchemaF fuel (idxFields 0 xs))
  | _ + 1, v => v
end

/-- Function `canonicalizeSchema`, at an entry fuel that is always
sufficient (see `canonSchemaF`). -/
def canonicalizeSchema (fields : List (String × Js)) : List (String × Js) :=
  canonSchemaF (4 * jsFieldsSize fields + 4) fields

/-- Modelled builtin: `createHash('sha256').update(s).digest()` rendered to
base64 with `+/=` stripped and truncated to 32 characters — idealized as an
injective fingerprint (the identity), since SHA-256 is collision
resistant; digest equality in the model coincides with preimage equality. -/
def hashFingerprint (s : String) : String := s

/-- Function `computeModelDigest`. -/
def computeModelDigest (model : ModelDefinition) : String :=
  "model:" ++ hashFingerprint (Js.stringify (.obj
    [("name", Js.str model.name), ("schema", Js.obj (canonicalizeSchema model.schema))]))

/-- Function `computeProtocolDigest`: hash of the canonical representation
`{name, version, models}` with models sorted by `localeCompare` on name. -/
def computeProtocolDigest (manifest : ProtocolManifest) : String :=
  "proto:" ++ hashFingerprint (Js.stringify (.obj
    [("name", Js.str manifest.name), ("version", Js.str manifest.version),
     ("models", Js.arr ((digestModels manifest.models).map fun m =>
       Js.obj [("name", Js.str m.name), ("schema", Js.obj (canonicalizeSchema m.schema))]))]))

/-- Function `createProtocolManifest`: build the manifest with an empty
digest, then fill the digest from `computeProtocolDigest`.  (In the source
`handlers` defaults to `[]`; callers here pass it explicitly.) -/
def createProtocolManifest (name version : String) (models : List ModelDefinition)
    (handlers : List HandlerDefinition) (description : Option String) : ProtocolManifest :=
  let manifest : ProtocolManifest :=
    { name := name, version := version, digest := "", description := description,
      models := models, handlers := handlers }
  { manifest with digest := computeProtocolDigest manifest }

/-- Per-model error accumulation of `validateProtocolManifest`: a model
with a falsy (empty) name is reported; the schema arm
(`!model.schema || typeof model.schema !== 'object'`) can never fire in the
typed embedding, where a schema is always an object. -/
def modelErrors : Nat → List ModelDefinition → List String
  | _, [] => []
  | i, m :: ms =>
    (if m.name = "" then ["Model at index " ++ toString i ++ " missing name"] else [])
      ++ modelErrors (i + 1) ms

/-- Function `validateProtocolManifest`: accumulate all errors; `valid` iff
none.  `name`/`version` are typed strings, so their arms fire exactly on
emptiness (JavaScript falsiness); `models` is a typed array, so
`!manifest.models || !Array.isArray(manifest.models)` never fires — an
empty array is truthy — and the per-model loop runs. -/
def validateProtocolManifest (manifest : ProtocolManifest) : Bool × List String :=
  let errors : List String :=
    (if manifest.name = "" then ["Missing or invalid protocol name"] else [])
      ++ (if manifest.version = "" then ["Missing or invalid protocol version"] else [])
      ++ modelErrors 0 manifest.models
  (errors.isEmpty, errors)

/-- Function `areProtocolsCompatible`: some model digest of the second
manifest occurs among the model digests of the first (`Set.has` on the
digest strings is list membership). -/
def areProtocolsCompatible (protocol1 protocol2 : ProtocolManifest) : Bool :=
  let models1 := protocol1.models.map computeModelDigest
  (protocol2.models.map computeModelDigest).any fun digest => models1.contains digest

/-! ## Order-theoretic facts about the collation model -/

theorem cmpNatList_swap : ∀ (a b : List Nat), cmpNatList b a = (cmpNatList a b).swap
  | [], [] => by simp [cmpNatList, Ordering.swap]
  | [], _ :: _ => by simp [cmpNatList, Ordering.swap]
  | _ :: _, [] => by simp [cmpNatList, Ordering.swap]
  | x :: xs, y :: ys => by
    rw [cmpNatList, cmpNatList]
    by_cases h1 : x < y
    · simp [h1, show ¬(y < x) from by omega, Ordering.swap]
    by_cases h2 : y < x
    · simp [h1, h2, Ordering.swap]
    · simp [h1, h2, cmpNatList_swap xs ys]

theorem cmpNatList_le_trans : ∀ (a b c : List Nat),
    cmpNatList a b ≠ .gt → cmpNatList b c ≠ .gt → cmpNatList a c ≠ .gt
  | [], b, c, _, _ => by
    intro hgt
    cases c with
    | nil => exact absurd hgt (by decide)
    | cons d ds =>
      rw [show cmpNatList [] (d :: ds) = Ordering.lt from rfl] at hgt
      exact absurd hgt (by decide)
  | _ :: _, [], _, h1, _ => absurd rfl (by rw [cmpNatList] at h1; exact h1)
  | _ :: _, _ :: _, [], _, h2 => absurd rfl (by rw [cmpNatList] at h2; exact h2)
  | x :: xs, y :: ys, z :: zs, h1, h2 => by
    rw [cmpNatList] at h1 h2 ⊢
    by_cases hxy : x < y
    · have hyz : ¬ (z < y) := by
        intro hzy
        rw [if_neg (by omega), if_pos hzy] at h2
        exact h2 rfl
      rw [if_pos (by omega)]
      simp
    by_cases hyx : y < x
    · rw [if_neg hxy, if_pos hyx] at h1
      exact absurd rfl h1
    have hxy2 : x = y := by omega
    rw [if_neg hxy, if_neg hyx] at h1
    by_cases hyz : y < z
    · rw [if_pos (by omega)]
      simp
    by_cases hzy : z < y
    · rw [if_neg hyz, if_pos hzy] at h2
      exact absurd rfl h2
    · rw [if_neg hyz, if_neg hzy] at h2
      rw [if_neg (by omega), if_neg (by omega)]
      exact cmpNatList_le_trans xs ys zs h1 h2

theorem localeCompare_eq_symm {a b : String} (h : localeCompare a b = .eq) :
    localeCompare b a = .eq := by
  rw [localeCompare] at h ⊢
  rw [cmpNatList_swap (collKey a) (collKey b), h]
  rfl

/-- Collation non-equivalence of model names is a symmetric relation. -/
theorem nameDistinct_symm : Symmetric (fun a b : ModelDefinition =>
    localeCompare a.name b.name ≠ Ordering.eq) := by
  intro a b hab heq
  exact hab (localeCompare_eq_symm heq)

instance : IsTotal ModelDefinition modelLe where
  total a b := by
    rw [modelLe, modelLe, localeCompare, localeCompare,
      cmpNatList_swap (collKey a.name) (collKey b.name)]
    cases cmpNatList (collKey a.name) (collKey b.name) <;> simp [Ordering.swap]

instance : IsTrans ModelDefinition modelLe where
  trans _ _ _ h1 h2 := cmpNatList_le_trans _ _ _ h1 h2

/-- Two sorted lists of models that are permutations of each other and
whose names are pairwise non-equivalent under the collation are equal: on
such elements the sort order is antisymmetric. -/
theorem sorted_perm_unique : ∀ (l1 l2 : List ModelDefinition), l1.Perm l2 →
    l1.Sorted modelLe → l2.Sorted modelLe →
    l1.Pairwise (fun a b => localeCompare a.name b.name ≠ Ordering.eq) → l1 = l2
  | [], l2, hp, _, _, _ => by
    rw [List.Perm.nil_eq hp]
  | x :: t, [], hp, _, _, _ => by
    exact absurd hp.symm (by simp)
  | x :: t, y :: u, hp, hs1, hs2, hpw => by
    have hxy : x = y := by
      have hymem : y ∈ x :: t := hp.symm.subset (by simp)
      have hxmem : x ∈ y :: u := hp.subset (by simp)
      rcases List.mem_cons.mp hymem with he | hyt
      · exact he.symm
      rcases List.mem_cons.mp hxmem with he | hxu
      · exact he
      have h1 : modelLe x y := (List.sorted_cons.mp hs1).1 y hyt
      have h2 : modelLe y x := (List.sorted_cons.mp hs2).1 x hxu
      rw [modelLe] at h1 h2
      rw [localeCompare, cmpNatList_swap (collKey x.name) (collKey y.name)] at h2
      rw [localeCompare] at h1
      have heq : localeCompare x.name y.name = .eq := by
        rw [localeCompare]
        cases hcc : cmpNatList (collKey x.name) (collKey y.name) with
        | lt =>
          rw [hcc] at h2
          exact absurd (by decide : Ordering.lt.swap = Ordering.gt) h2
        | eq => rfl
        | gt =>
          rw [hcc] at h1
          exact absurd rfl h1
      exact absurd heq ((List.pairwise_cons.mp hpw).1 y hyt)
    subst hxy
    have htail := hp.cons_inv
    have ht1 := (List.sorted_cons.mp hs1).2
    have ht2 := (List.sorted_cons.mp hs2).2
    have hpt := (List.pairwise_cons.mp hpw).2
    rw [sorted_perm_unique t u htail ht1 ht2 hpt]

/-- Stable-sort output is unique up to the input's multiset when no two
model names are collation-equivalent: permuting the input does not change
`digestModels`. -/
theorem digestModels_perm {l1 l2 : List ModelDefinition} (hp : l1.Perm l2)
    (hpw : l1.Pairwise (fun a b => localeCompare a.name b.name ≠ Ordering.eq)) :
    digestModels l1 = digestModels l2 := by
  apply sorted_perm_unique
  · exact (List.perm_insertionSort modelLe l1).trans (hp.trans
      (List.perm_insertionSort modelLe l2).symm)
  · exact List.sorted_insertionSort modelLe l1
  · exact List.sorted_insertionSort modelLe l2
  · exact ((List.perm_insertionSort modelLe l1).pairwise_iff (fun {x y} h => nameDistinct_symm h)).mpr hpw

/-! ## The claims -/

/-- C1: payload encoding round-trips — decoding an envelope whose payload
field equals `encodePayload p` (equivalently, the payload `createEnvelope`
stores for `p`) yields a value structurally equal to `p`. -/
theorem fetchai_c1_payload_roundtrip (p : List (String × Js)) :
    (∀ e : AgentEnvelope, e.payload = encodePayload p → decodePayload e = some (.obj p))
    ∧ (∀ (now : Int) (fs fn sender target sd : String) (opts : CreateOptions),
        decodePayload (createEnvelope now fs fn sender target p sd opts) = some (.obj p)) := by
  constructor
  · intro e he
    rw [decodePayload, he, decodePayloadStr_encodePayload]
  · intro now fs fn sender target sd opts
    rw [decodePayload]
    exact decodePayloadStr_encodePayload p

/-- C1 witness: the round trip at a concrete envelope and payload. -/
theorem fetchai_c1_payload_roundtrip_witness :
    decodePayload
      { version := 1, sender := "agent1qsender", target := "agent1qtarget",
        session := "sess", schemaDigest := "model:test123", protocolDigest := none,
        payload := encodePayload [("message", Js.str "test")], expires := some 1300,
        nonce := some "abcd", signature := none }
      = some (.obj [("message", Js.str "test")]) :=
  (fetchai_c1_payload_roundtrip [("message", Js.str "test")]).1 _ rfl

/-- C2: verification is total and fails closed — `verifyEnvelope` is a
boolean-valued function (totality is the type of the embedding, where a
backend exception is an `Except.error` value); it returns `false` whenever
`signature` is absent, and `false` whenever the cryptographic backend
throws. -/
theorem fetchai_c2_verify_fails_closed (vb : VerifyBackend) (e : AgentEnvelope)
    (pk : List Nat) :
    (e.signature = none → verifyEnvelope vb e pk = false)
    ∧ (∀ sig msg, e.signature = some sig → vb pk (signingPayload e) sig = .error msg →
        verifyEnvelope vb e pk = false) := by
  constructor
  · intro h
    rw [verifyEnvelope, h]
  · intro sig msg hsig herr
    rw [verifyEnvelope, hsig]
    by_cases hempty : sig = ""
    · simp [hempty]
    · simp [hempty, herr]

/-- C2 witness: a signature-less envelope and a throwing backend both
verify to `false` at concrete inputs. -/
theorem fetchai_c2_verify_fails_closed_witness :
    verifyEnvelope (fun _ _ _ => Except.error "bad key")
      { version := 1, sender := "a", target := "b", session := "s",
        schemaDigest := "d", protocolDigest := none, payload := "p",
        expires := some 10, nonce := some "n", signature := none } [] = false
    ∧ verifyEnvelope (fun _ _ _ => Except.error "bad key")
      { version := 1, sender := "a", target := "b", session := "s",
        schemaDigest := "d", protocolDigest := none, payload := "p",
        expires := some 10, nonce := some "n", signature := some "sig" } [] = false :=
  ⟨(fetchai_c2_verify_fails_closed (fun _ _ _ => Except.error "bad key") _ []).1 rfl,
   (fetchai_c2_verify_fails_closed (fun _ _ _ => Except.error "bad key") _ []).2
     "sig" "bad key" rfl rfl⟩

/-- C3: the canonical signing payload excludes `protocolDigest` — replacing
or removing the `protocolDigest` of a signed envelope changes neither the
signing payload nor the verification outcome, for every backend and key. -/
theorem fetchai_c3_protocol_digest_unsigned (sb : SignBackend) (vb : VerifyBackend)
    (e : AgentEnvelope) (priv pk : List Nat) (d : Option String) :
    signingPayload { signEnvelope sb e priv with protocolDigest := d }
      = signingPayload (signEnvelope sb e priv)
    ∧ verifyEnvelope vb { signEnvelope sb e priv with protocolDigest := d } pk
      = verifyEnvelope vb (signEnvelope sb e priv) pk :=
  ⟨rfl, rfl⟩

/-- C4 counterexample: the digest preimage of a manifest with models named
`"B"` and `"a"` orders them `["a", "B"]` (the `localeCompare` collation),
and the UTF-8 bytes of `"a"` are not lexicographically below those of
`"B"` — refuting strict byte-order of adjacent names. -/
theorem fetchai_c4_sort_counterexample :
    ¬ List.Chain' (fun a b : ModelDefinition =>
        cmpNatList (utf8Encode a.name) (utf8Encode b.name) = Ordering.lt)
      (digestModels [⟨"B", [], none⟩, ⟨"a", [], none⟩]) := by
  intro h
  rw [show digestModels [⟨"B", [], none⟩, ⟨"a", [], none⟩]
      = [⟨"a", [], none⟩, ⟨"B", [], none⟩] from rfl] at h
  have hab := (List.chain'_cons.mp h).1
  exact absurd hab (by decide)

/-- C4 amended: `computeProtocolDigest` serializes the models sorted by the
root-collation order of `localeCompare` on names (`modelLe`: ignorable
controls skipped, punctuation below digits below case-folded letters), not
by UTF-8 byte order; the sorted sequence is a permutation of the input, so
duplicate names are preserved rather than deduplicated. -/
theorem fetchai_c4_amended (manifest : ProtocolManifest) :
    (digestModels manifest.models).Perm manifest.models
    ∧ List.Sorted modelLe (digestModels manifest.models) :=
  ⟨List.perm_insertionSort modelLe manifest.models,
   List.sorted_insertionSort modelLe manifest.models⟩

/-- C5 counterexample: a manifest with non-empty name and version but an
empty models array validates as `valid = true` — the code does not enforce
the spec's non-empty-models requirement, because an empty array is truthy. -/
theorem fetchai_c5_counterexample :
    ¬ ((validateProtocolManifest
        { name := "p", version := "1", digest := "", description := none,
          models := [], handlers := [] }).1 = false) := by
  decide

/-- C5 amended: for every manifest with non-empty name and version and an
empty models list, `validateProtocolManifest` returns `valid = true` with
no errors (the non-empty-models requirement of the spec is not enforced). -/
theorem fetchai_c5_amended (manifest : ProtocolManifest) (h1 : manifest.name ≠ "")
    (h2 : manifest.version ≠ "") (h3 : manifest.models = []) :
    validateProtocolManifest manifest = (true, []) := by
  rw [validateProtocolManifest, h3]
  simp [h1, h2, modelErrors]

/-- C5 witness: the amended claim at a concrete manifest. -/
theorem fetchai_c5_amended_witness :
    validateProtocolManifest
      { name := "p", version := "1", digest := "", description := none,
        models := [], handlers := [] } = (true, []) :=
  fetchai_c5_amended _ (by decide) (by decide) rfl

/-- C6 counterexample: two models sharing the name `"M"` with different
schemas — the stable sort leaves them in input order, so supplying them in
reverse order changes the digest `createProtocolManifest` computes. -/
theorem fetchai_c6_digest_counterexample :
    (createProtocolManifest "p" "1"
        [⟨"M", [("a", Js.str "x")], none⟩, ⟨"M", [("b", Js.str "y")], none⟩] [] none).digest
    ≠ (createProtocolManifest "p" "1"
        [⟨"M", [("b", Js.str "y")], none⟩, ⟨"M", [("a", Js.str "x")], none⟩] [] none).digest := by
  decide

/-- C6 amended: when no two model names are equivalent under the
`localeCompare` collation — name ties, whether equal strings or names
differing only in collation-ignorable characters, are a caller error since
the stable sort then preserves input order — `createProtocolManifest`
yields the same digest for every permutation of the models; the digest
always begins with `"proto:"`; and the stored digest field equals
`computeProtocolDigest` of the returned manifest. -/
theorem fetchai_c6_amended (name version : String) (models models2 : List ModelDefinition)
    (handlers : List HandlerDefinition) (description : Option String)
    (hperm : models2.Perm models)
    (hpw : models.Pairwise (fun a b => localeCompare a.name b.name ≠ Ordering.eq)) :
    (createProtocolManifest name version models2 handlers description).digest
      = (createProtocolManifest name version models handlers description).digest
    ∧ (∃ r, (createProtocolManifest name version models handlers description).digest
        = "proto:" ++ r)
    ∧ (createProtocolManifest name version models handlers description).digest
      = computeProtocolDigest (createProtocolManifest name version models handlers description) := by
  have hdm : digestModels models2 = digestModels models :=
    digestModels_perm hperm ((hperm.pairwise_iff (fun {x y} h => nameDistinct_symm h)).mpr hpw)
  refine ⟨?_, ⟨_, rfl⟩, rfl⟩
  show computeProtocolDigest ⟨name, version, "", description, models2, handlers⟩
    = computeProtocolDigest ⟨name, version, "", description, models, handlers⟩
  rw [computeProtocolDigest, computeProtocolDigest]
  simp only [hdm]

/-- C6 witness: the spec's concrete scenario — Request/Response models
(collation-distinct names) supplied in either order give the same
`proto:`-prefixed digest. -/
theorem fetchai_c6_amended_witness :
    ([⟨"Response", [("bar", Js.str "string")], none⟩,
      ⟨"Request", [("foo", Js.str "string")], none⟩] : List ModelDefinition).Perm
      [⟨"Request", [("foo", Js.str "string")], none⟩,
       ⟨"Response", [("bar", Js.str "string")], none⟩]
    ∧ ((createProtocolManifest "model1" "1.0"
          [⟨"Response", [("bar", Js.str "string")], none⟩,
           ⟨"Request", [("foo", Js.str "string")], none⟩] [] none).digest
        = (createProtocolManifest "model1" "1.0"
          [⟨"Request", [("foo", Js.str "string")], none⟩,
           ⟨"Response", [("bar", Js.str "string")], none⟩] [] none).digest
      ∧ (∃ r, (createProtocolManifest "model1" "1.0"
          [⟨"Request", [("foo", Js.str "string")], none⟩,
           ⟨"Response", [("bar", Js.str "string")], none⟩] [] none).digest = "proto:" ++ r)
      ∧ (createProtocolManifest "model1" "1.0"
          [⟨"Request", [("foo", Js.str "string")], none⟩,
           ⟨"Response", [("bar", Js.str "string")], none⟩] [] none).digest
        = computeProtocolDigest (createProtocolManifest "model1" "1.0"
          [⟨"Request", [("foo", Js.str "string")], none⟩,
           ⟨"Response", [("bar", Js.str "string")], none⟩] [] none)) :=
  ⟨List.Perm.swap _ _ _,
   fetchai_c6_amended "model1" "1.0" _ _ [] none (List.Perm.swap _ _ _) (by decide)⟩

/-- C7: compatibility is digest-set intersection — `areProtocolsCompatible`
is true exactly when some model of each manifest shares a model digest,
independent of names. -/
theorem fetchai_c7_compatibility (p1 p2 : ProtocolManifest) :
    areProtocolsCompatible p1 p2 = true
    ↔ ∃ m1 ∈ p1.models, ∃ m2 ∈ p2.models,
        computeModelDigest m1 = computeModelDigest m2 := by
  rw [areProtocolsCompatible]
  simp only [List.any_eq_true, List.mem_map]
  constructor
  · rintro ⟨dg, ⟨m2, hm2, rfl⟩, hc⟩
    rw [List.contains_iff_exists_mem_beq] at hc
    obtain ⟨dg1, hdg1, hbeq⟩ := hc
    obtain ⟨m1, hm1, rfl⟩ := List.mem_map.mp hdg1
    exact ⟨m1, hm1, m2, hm2, (by simpa using hbeq : computeModelDigest m2
      = computeModelDigest m1).symm⟩
  · rintro ⟨m1, hm1, m2, hm2, heq⟩
    refine ⟨computeModelDigest m2, ⟨m2, hm2, rfl⟩, ?_⟩
    rw [List.contains_iff_exists_mem_beq]
    exact ⟨computeModelDigest m1, List.mem_map_of_mem _ hm1, by simp [heq]⟩

/-- C8: the expiry boundary is a strict comparison — `isExpired` is true
exactly when the current time strictly exceeds the timestamp, so one second
past is expired, one second ahead is not, and the expiry instant itself is
not yet expired. -/
theorem fetchai_c8_expiry_boundary (now t : Int) :
    (isExpired now t = true ↔ now > t)
    ∧ isExpired now (now - 1) = true
    ∧ isExpired now (now + 1) = false
    ∧ isExpired now now = false := by
  refine ⟨by simp [isExpired], ?_, ?_, ?_⟩
  · have h : now - 1 < now := by omega
    simp [isExpired, h]
  · have h : ¬ (now + 1 < now) := by omega
    simp [isExpired, h]
  · have h : ¬ (now < now) := by omega
    simp [isExpired, h]

/-- C9 counterexample: a supplied `expirySeconds` of `0` is falsy, so `||`
replaces it with the 300-second default — the expiry is not `now + 0`. -/
theorem fetchai_c9_expiry_counterexample :
    (createEnvelope 1000 "s" "n" "sender" "target" [] "model:d"
      { session := none, protocolDigest := none, expirySeconds := some 0 }).expires
    ≠ some (1000 + 0) := by
  decide

/-- C9 amended: for every supplied nonzero `expirySeconds` value n the
expiry equals current time plus n; when `expirySeconds` is absent — or `0`,
which is falsy under `||` — the expiry is current time plus the default
`DEFAULT_MESSAGE_EXPIRY` (300 seconds). -/
theorem fetchai_c9_amended (now : Int) (fs fn sender target sd : String)
    (p : List (String × Js)) (session pd : Option String) (n : Int) (hn : n ≠ 0) :
    (createEnvelope now fs fn sender target p sd ⟨session, pd, some n⟩).expires
      = some (now + n)
    ∧ (createEnvelope now fs fn sender target p sd ⟨session, pd, none⟩).expires
      = some (now + 300)
    ∧ (createEnvelope now fs fn sender target p sd ⟨session, pd, some 0⟩).expires
      = some (now + 300) := by
  refine ⟨?_, rfl, rfl⟩
  rw [show (createEnvelope now fs fn sender target p sd ⟨session, pd, some n⟩).expires
      = some (calculateExpiry now (jsOrInt (some n) DEFAULT_MESSAGE_EXPIRY)) from rfl]
  rw [jsOrInt, if_neg hn]
  rfl

/-- C9 witness: the amended claim at a concrete TTL of 60 seconds. -/
theorem fetchai_c9_amended_witness :
    (60 : Int) ≠ 0
    ∧ (createEnvelope 1000 "s" "n" "a" "b" [] "d" ⟨none, none, some 60⟩).expires
      = some (1000 + 60) :=
  ⟨by decide, (fetchai_c9_amended 1000 "s" "n" "a" "b" "d" [] none none 60 (by decide)).1⟩

/-- C10 counterexample: an original envelope whose `session` is the empty
string (falsy) makes `createErrorEnvelope` generate a fresh session instead
of reusing it — refuting `session = o.session` for every original. -/
theorem fetchai_c10_session_counterexample :
    (createErrorEnvelope 1000 "fresh-session" "nonce"
      ⟨1, "origSender", "origTarget", "", "model:x", some "proto:z", "pl", some 50,
        some "nn", none⟩
      "errSender" "code1" "boom").session
    ≠ ((⟨1, "origSender", "origTarget", "", "model:x", some "proto:z", "pl", some 50,
        some "nn", none⟩ : AgentEnvelope)).session := by
  decide

/-- C10 amended: for every original envelope with a non-empty session,
`createErrorEnvelope` returns an unsigned envelope with `protocolDigest`
absent (even when the original has one), the original's session, the
original sender as target, schema digest `model:error-v1`, and a payload
decoding to `{type: "error", code, message}` — unlike
`createResponseEnvelope`, which propagates `o.protocolDigest`. -/
theorem fetchai_c10_amended (now : Int) (fs fn : String) (o : AgentEnvelope)
    (sender code msg : String) (hs : o.session ≠ "") :
    (createErrorEnvelope now fs fn o sender code msg).protocolDigest = none
    ∧ (createErrorEnvelope now fs fn o sender code msg).session = o.session
    ∧ (createErrorEnvelope now fs fn o sender code msg).target = o.sender
    ∧ (createErrorEnvelope now fs fn o sender code msg).signature = none
    ∧ (createErrorEnvelope now fs fn o sender code msg).schemaDigest = "model:error-v1"
    ∧ decodePayload (createErrorEnvelope now fs fn o sender code msg)
        = some (.obj [("type", Js.str "error"), ("code", Js.str code),
            ("message", Js.str msg)])
    ∧ (∀ (rp : List (String × Js)) (rsd : String),
        (createResponseEnvelope now fs fn o sender rp rsd).protocolDigest
          = o.protocolDigest) := by
  refine ⟨rfl, ?_, rfl, rfl, rfl, ?_, fun rp rsd => rfl⟩
  · rw [show (createErrorEnvelope now fs fn o sender code msg).session
        = jsOrStr (some o.session) fs from rfl]
    rw [jsOrStr, if_neg hs]
  · rw [decodePayload]
    exact decodePayloadStr_encodePayload _

/-- C10 witness: the amended claim at a concrete original envelope with a
protocol digest present and a non-empty session. -/
theorem fetchai_c10_amended_witness :
    (createErrorEnvelope 1000 "fs" "fn"
      { version := 1, sender := "origSender", target := "origTarget", session := "sess",
        schemaDigest := "model:x", protocolDigest := some "proto:z", payload := "pl",
        expires := some 50, nonce := some "nn", signature := none }
      "errSender" "code1" "boom").protocolDigest = none
    ∧ (createErrorEnvelope 1000 "fs" "fn"
      { version := 1, sender := "origSender", target := "origTarget", session := "sess",
        schemaDigest := "model:x", protocolDigest := some "proto:z", payload := "pl",
        expires := some 50, nonce := some "nn", signature := none }
      "errSender" "code1" "boom").session = "sess" :=
  ⟨(fetchai_c10_amended 1000 "fs" "fn" _ "errSender" "code1" "boom" (by decide)).1,
   (fetchai_c10_amended 1000 "fs" "fn" _ "errSender" "code1" "boom" (by decide)).2.1⟩

end Fetchai
